import Mathlib

/-!
Verification of the GeoDecode reverse-geocoding package (geodecode.go).

The Go source is embedded shallowly: float64 coordinates become exact
rationals, slices become lists, the nil slice returned by Query becomes
none, and the gonum kdtree library (which is not part of this repository)
is modelled from the specification of the Spatial Index Builder and the
Nearest-Neighbor Query Engine.
-/

set_option maxRecDepth 100000

namespace GeoDecode

/-- Coordinate pair (latitude, longitude); models the [2]float64 of the source. -/
abbrev Coord := ℚ × ℚ

/-- Squared planar Euclidean distance between two coordinate pairs. -/
def sqDist (a b : Coord) : ℚ :=
  (a.1 - b.1) * (a.1 - b.1) + (a.2 - b.2) * (a.2 - b.2)

/-- Embeds the geoPoint struct (src/geodecode.go lines 43-46): a 2-component
coordinate plus the integer position of its owning Location in the dataset. -/
structure geoPoint where
  LatLon : Coord
  Index : Int
  deriving DecidableEq, Repr

instance : Inhabited geoPoint := ⟨⟨(0, 0), 0⟩⟩

/-- Component of a geoPoint along a split dimension (0 = latitude, 1 = longitude). -/
def geoPoint.get (p : geoPoint) (d : Fin 2) : ℚ :=
  if d.val = 0 then p.LatLon.1 else p.LatLon.2

/-- Embeds geoPoint.Distance (src/geodecode.go lines 61-66): the squared
Euclidean distance between the receiver and the argument. -/
def geoPoint.Distance (p c : geoPoint) : ℚ :=
  let dLat := p.LatLon.1 - c.LatLon.1
  let dLon := p.LatLon.2 - c.LatLon.2
  dLat * dLat + dLon * dLon

theorem geoPoint.Distance_eq_sqDist (p c : geoPoint) :
    p.Distance c = sqDist p.LatLon c.LatLon := rfl

/-- Comparison of two points by their component on one split dimension. -/
def dimLE (d : Fin 2) (a b : geoPoint) : Prop := a.get d ≤ b.get d

instance (d : Fin 2) : IsTotal geoPoint (dimLE d) :=
  ⟨fun a b => le_total (a.get d) (b.get d)⟩

instance (d : Fin 2) : IsTrans geoPoint (dimLE d) :=
  ⟨fun _ _ _ hab hbc => le_trans hab hbc⟩

instance (d : Fin 2) : DecidableRel (dimLE d) :=
  fun a b => inferInstanceAs (Decidable (a.get d ≤ b.get d))

/-- Arrange a list of index keys by their component on dimension d; the
functional counterpart of the selection step of the builder. -/
def sortByDim (d : Fin 2) (l : List geoPoint) : List geoPoint :=
  List.insertionSort (dimLE d) l

theorem sortByDim_perm (d : Fin 2) (l : List geoPoint) : List.Perm (sortByDim d l) l :=
  List.perm_insertionSort (dimLE d) l

theorem sortByDim_length (d : Fin 2) (l : List geoPoint) :
    (sortByDim d l).length = l.length :=
  (sortByDim_perm d l).length_eq

theorem sortByDim_pairwise (d : Fin 2) (l : List geoPoint) :
    (sortByDim d l).Pairwise (dimLE d) :=
  List.sorted_insertionSort (dimLE d) l

theorem mem_sortByDim (d : Fin 2) (l : List geoPoint) (x : geoPoint) :
    x ∈ sortByDim d l ↔ x ∈ l :=
  (sortByDim_perm d l).mem_iff

/-- Modelled from the spec: the spatial index over index keys built by the
gonum kdtree library, which is not part of this repository's sources. Each
internal node holds one key, a split dimension and two subtrees (spec
section 3). -/
inductive KDTree where
  | leaf
  | node (left : KDTree) (pt : geoPoint) (dim : Fin 2) (right : KDTree)
  deriving DecidableEq, Repr

/-- All index keys stored in a tree. -/
def KDTree.points : KDTree → List geoPoint
  | .leaf => []
  | .node l p _ r => l.points ++ p :: r.points

/-- Ordering invariant of the spatial index (spec section 3): every key in a
left subtree lies at or below the node on the split dimension, every key in a
right subtree at or above it, recursively. -/
def KDTree.Good : KDTree → Prop
  | .leaf => True
  | .node l p d r =>
      (∀ x ∈ l.points, x.get d ≤ p.get d) ∧ (∀ x ∈ r.points, p.get d ≤ x.get d) ∧
        l.Good ∧ r.Good

/-- Split dimension used at a given tree depth: alternates latitude,
longitude, latitude, and so on (spec section 4.1, step 1). -/
def dimOf (depth : Nat) : Fin 2 := ⟨depth % 2, Nat.mod_lt depth (by norm_num)⟩

/-- Modelled from the spec: the recursive partition-by-median construction of
the Spatial Index Builder (spec section 4.1), standing in for kdtree.New of
the gonum library. At depth d the range is split on dimension d mod 2; the
median key of the range on that dimension becomes the node, keys before it in
the arranged order form the left subtree, keys after it the right subtree.
The fuel argument only bounds the recursion depth; build instantiates it with
the length of the key list, which the recursion never exceeds. -/
def buildAux : Nat → Nat → List geoPoint → KDTree
  | 0, _, _ => .leaf
  | fuel + 1, depth, l =>
    if hm : (sortByDim (dimOf depth) l).length / 2 < (sortByDim (dimOf depth) l).length then
      .node
        (buildAux fuel (depth + 1)
          ((sortByDim (dimOf depth) l).take ((sortByDim (dimOf depth) l).length / 2)))
        ((sortByDim (dimOf depth) l).get ⟨(sortByDim (dimOf depth) l).length / 2, hm⟩)
        (dimOf depth)
        (buildAux fuel (depth + 1)
          ((sortByDim (dimOf depth) l).drop ((sortByDim (dimOf depth) l).length / 2 + 1)))
    else
      .leaf

/-- Modelled from the spec: the Spatial Index Builder entry point
(spec section 4.1). -/
def build (depth : Nat) (l : List geoPoint) : KDTree := buildAux l.length depth l

theorem sorted_split (d : Fin 2) (s : List geoPoint) (hp : s.Pairwise (dimLE d))
    (m : Nat) (hm : m < s.length) :
    (∀ x ∈ s.take m, x.get d ≤ (s.get ⟨m, hm⟩).get d) ∧
      (∀ x ∈ s.drop (m + 1), (s.get ⟨m, hm⟩).get d ≤ x.get d) := by
  have hdrop : s.drop m = s.get ⟨m, hm⟩ :: s.drop (m + 1) := by
    rw [List.drop_eq_getElem_cons hm]; rfl
  have hp2 : (s.take m ++ s.drop m).Pairwise (dimLE d) := by
    rw [List.take_append_drop]; exact hp
  rcases List.pairwise_append.mp hp2 with ⟨-, hpd, hcross⟩
  constructor
  · intro x hx
    exact hcross x hx _ (by rw [hdrop]; exact List.mem_cons_self _ _)
  · intro x hx
    rw [hdrop] at hpd
    exact (List.pairwise_cons.mp hpd).1 x hx

theorem mem_split (s : List geoPoint) (m : Nat) (hm : m < s.length) (x : geoPoint) :
    x ∈ s ↔ x ∈ s.take m ∨ x = s.get ⟨m, hm⟩ ∨ x ∈ s.drop (m + 1) := by
  have hdrop : s.drop m = s.get ⟨m, hm⟩ :: s.drop (m + 1) := by
    rw [List.drop_eq_getElem_cons hm]; rfl
  conv_lhs => rw [← List.take_append_drop m s]
  rw [List.mem_append, hdrop, List.mem_cons]

theorem points_buildAux (fuel : Nat) :
    ∀ (depth : Nat) (l : List geoPoint), l.length ≤ fuel →
      ∀ x, x ∈ (buildAux fuel depth l).points ↔ x ∈ l := by
  induction fuel with
  | zero =>
    intro depth l hl x
    have h0 : l = [] := List.length_eq_zero.mp (Nat.le_zero.mp hl)
    subst h0
    simp [buildAux, KDTree.points]
  | succ fuel ih =>
    intro depth l hl x
    have hslen : (sortByDim (dimOf depth) l).length = l.length := sortByDim_length _ _
    by_cases hm :
        (sortByDim (dimOf depth) l).length / 2 < (sortByDim (dimOf depth) l).length
    · simp only [buildAux]
      rw [dif_pos hm]
      simp only [KDTree.points, List.mem_append, List.mem_cons]
      have htake :
          ((sortByDim (dimOf depth) l).take
            ((sortByDim (dimOf depth) l).length / 2)).length ≤ fuel := by
        simp only [List.length_take]
        omega
      have hdrop :
          ((sortByDim (dimOf depth) l).drop
            ((sortByDim (dimOf depth) l).length / 2 + 1)).length ≤ fuel := by
        simp only [List.length_drop]
        omega
      rw [ih _ _ htake x, ih _ _ hdrop x, ← mem_sortByDim (dimOf depth) l x,
        mem_split _ _ hm]
    · simp only [buildAux]
      rw [dif_neg hm]
      have hlen : l.length = 0 := by omega
      simp [KDTree.points, List.length_eq_zero.mp hlen]

theorem Good_buildAux (fuel : Nat) :
    ∀ (depth : Nat) (l : List geoPoint), l.length ≤ fuel →
      (buildAux fuel depth l).Good := by
  induction fuel with
  | zero =>
    intro depth l hl
    simp [buildAux, KDTree.Good]
  | succ fuel ih =>
    intro depth l hl
    have hslen : (sortByDim (dimOf depth) l).length = l.length := sortByDim_length _ _
    by_cases hm :
        (sortByDim (dimOf depth) l).length / 2 < (sortByDim (dimOf depth) l).length
    · simp only [buildAux]
      rw [dif_pos hm]
      have hsp := sorted_split (dimOf depth) _ (sortByDim_pairwise (dimOf depth) l) _ hm
      have htake :
          ((sortByDim (dimOf depth) l).take
            ((sortByDim (dimOf depth) l).length / 2)).length ≤ fuel := by
        simp only [List.length_take]
        omega
      have hdrop :
          ((sortByDim (dimOf depth) l).drop
            ((sortByDim (dimOf depth) l).length / 2 + 1)).length ≤ fuel := by
        simp only [List.length_drop]
        omega
      refine ⟨?_, ?_, ih _ _ htake, ih _ _ hdrop⟩
      · intro x hx
        rw [points_buildAux fuel _ _ htake x] at hx
        exact hsp.1 x hx
      · intro x hx
        rw [points_buildAux fuel _ _ hdrop x] at hx
        exact hsp.2 x hx
    · simp only [buildAux]
      rw [dif_neg hm]
      trivial

theorem points_build (depth : Nat) (l : List geoPoint) (x : geoPoint) :
    x ∈ (build depth l).points ↔ x ∈ l :=
  points_buildAux l.length depth l (le_refl _) x

theorem Good_build (depth : Nat) (l : List geoPoint) : (build depth l).Good :=
  Good_buildAux l.length depth l (le_refl _)

theorem build_ne_leaf (depth : Nat) (l : List geoPoint) (h : l ≠ []) :
    build depth l ≠ .leaf := by
  unfold build
  obtain ⟨k, hk⟩ : ∃ k, l.length = k + 1 := by
    cases l with
    | nil => exact absurd rfl h
    | cons a as => exact ⟨as.length, rfl⟩
  rw [hk]
  have hm : (sortByDim (dimOf depth) l).length / 2 < (sortByDim (dimOf depth) l).length := by
    rw [sortByDim_length, hk]
    omega
  simp only [buildAux]
  rw [dif_pos hm]
  exact fun hc => KDTree.noConfusion hc

/-- Modelled from the spec: the branch-and-bound nearest-neighbor traversal of
the query engine (spec section 4.2), standing in for the Nearest method of the
gonum kdtree library. The best candidate so far is carried as a key paired
with its squared distance; the node is recorded as candidate when it improves
on the best, the near subtree is visited first, and the far subtree only when
the squared distance to the splitting plane could still beat the best. -/
def nnSearch (q : geoPoint) : KDTree → geoPoint × ℚ → geoPoint × ℚ
  | .leaf, best => best
  | .node l p d r, best =>
    let best1 := if q.Distance p < best.2 then (p, q.Distance p) else best
    if q.get d < p.get d then
      let best2 := nnSearch q l best1
      if (q.get d - p.get d) * (q.get d - p.get d) < best2.2 then nnSearch q r best2
      else best2
    else
      let best2 := nnSearch q r best1
      if (q.get d - p.get d) * (q.get d - p.get d) < best2.2 then nnSearch q l best2
      else best2

/-- Modelled from the spec: the top-level nearest query; an empty index
signals no result instead of a placeholder key (spec sections 4.2 and 7). -/
def KDTree.Nearest (t : KDTree) (q : geoPoint) : Option (geoPoint × ℚ) :=
  match t with
  | .leaf => none
  | .node l p d r => some (nnSearch q (.node l p d r) (p, q.Distance p))

theorem axis_le_Distance (q x : geoPoint) (d : Fin 2) :
    (q.get d - x.get d) * (q.get d - x.get d) ≤ q.Distance x := by
  rcases q with ⟨⟨qa, qb⟩, qi⟩
  rcases x with ⟨⟨xa, xb⟩, xi⟩
  rcases d with ⟨dv, hd⟩
  interval_cases dv <;> simp [geoPoint.get, geoPoint.Distance] <;>
    nlinarith [mul_self_nonneg (qa - xa), mul_self_nonneg (qb - xb)]

theorem nnSearch_le (q : geoPoint) (t : KDTree) (best : geoPoint × ℚ) :
    (nnSearch q t best).2 ≤ best.2 := by
  induction t generalizing best with
  | leaf => exact le_refl _
  | node l p d r ihl ihr =>
    simp only [nnSearch]
    have hb1 : (if q.Distance p < best.2 then (p, q.Distance p) else best).2 ≤ best.2 := by
      split_ifs with h
      · exact le_of_lt h
      · exact le_refl _
    set b1 := (if q.Distance p < best.2 then (p, q.Distance p) else best) with hb1def
    by_cases h1 : q.get d < p.get d
    · rw [if_pos h1]
      by_cases hpl : (q.get d - p.get d) * (q.get d - p.get d) < (nnSearch q l b1).2
      · rw [if_pos hpl]
        exact ((ihr _).trans (ihl _)).trans hb1
      · rw [if_neg hpl]
        exact (ihl _).trans hb1
    · rw [if_neg h1]
      by_cases hpl : (q.get d - p.get d) * (q.get d - p.get d) < (nnSearch q r b1).2
      · rw [if_pos hpl]
        exact ((ihl _).trans (ihr _)).trans hb1
      · rw [if_neg hpl]
        exact (ihr _).trans hb1

theorem nnSearch_snd (q : geoPoint) (t : KDTree) (best : geoPoint × ℚ)
    (hb : best.2 = q.Distance best.1) :
    (nnSearch q t best).2 = q.Distance (nnSearch q t best).1 := by
  induction t generalizing best with
  | leaf => exact hb
  | node l p d r ihl ihr =>
    simp only [nnSearch]
    have hb1 : (if q.Distance p < best.2 then (p, q.Distance p) else best).2 =
        q.Distance (if q.Distance p < best.2 then (p, q.Distance p) else best).1 := by
      split_ifs with h
      · rfl
      · exact hb
    set b1 := (if q.Distance p < best.2 then (p, q.Distance p) else best) with hb1def
    by_cases h1 : q.get d < p.get d
    · rw [if_pos h1]
      by_cases hpl : (q.get d - p.get d) * (q.get d - p.get d) < (nnSearch q l b1).2
      · rw [if_pos hpl]
        exact ihr _ (ihl _ hb1)
      · rw [if_neg hpl]
        exact ihl _ hb1
    · rw [if_neg h1]
      by_cases hpl : (q.get d - p.get d) * (q.get d - p.get d) < (nnSearch q r b1).2
      · rw [if_pos hpl]
        exact ihl _ (ihr _ hb1)
      · rw [if_neg hpl]
        exact ihr _ hb1

theorem nnSearch_fst_mem (q : geoPoint) (t : KDTree) (best : geoPoint × ℚ) :
    (nnSearch q t best).1 = best.1 ∨ (nnSearch q t best).1 ∈ t.points := by
  induction t generalizing best with
  | leaf => exact Or.inl rfl
  | node l p d r ihl ihr =>
    simp only [nnSearch, KDTree.points, List.mem_append, List.mem_cons]
    have hb1 : (if q.Distance p < best.2 then (p, q.Distance p) else best).1 = best.1 ∨
        (if q.Distance p < best.2 then (p, q.Distance p) else best).1 = p := by
      split_ifs with h
      · exact Or.inr rfl
      · exact Or.inl rfl
    set b1 := (if q.Distance p < best.2 then (p, q.Distance p) else best) with hb1def
    by_cases h1 : q.get d < p.get d
    · rw [if_pos h1]
      by_cases hpl : (q.get d - p.get d) * (q.get d - p.get d) < (nnSearch q l b1).2
      · rw [if_pos hpl]
        rcases ihr (nnSearch q l b1) with h | h
        · rw [h]
          rcases ihl b1 with h2 | h2
          · rw [h2]
            tauto
          · tauto
        · tauto
      · rw [if_neg hpl]
        rcases ihl b1 with h | h
        · rw [h]
          tauto
        · tauto
    · rw [if_neg h1]
      by_cases hpl : (q.get d - p.get d) * (q.get d - p.get d) < (nnSearch q r b1).2
      · rw [if_pos hpl]
        rcases ihl (nnSearch q r b1) with h | h
        · rw [h]
          rcases ihr b1 with h2 | h2
          · rw [h2]
            tauto
          · tauto
        · tauto
      · rw [if_neg hpl]
        rcases ihr b1 with h | h
        · rw [h]
          tauto
        · tauto

theorem nnSearch_opt (q : geoPoint) (t : KDTree) (hg : t.Good) (best : geoPoint × ℚ)
    (x : geoPoint) (hx : x ∈ t.points) : (nnSearch q t best).2 ≤ q.Distance x := by
  induction t generalizing best with
  | leaf => exact absurd hx (List.not_mem_nil x)
  | node l p d r ihl ihr =>
    rcases hg with ⟨hL, hR, gL, gR⟩
    simp only [nnSearch]
    have hb1p : (if q.Distance p < best.2 then (p, q.Distance p) else best).2 ≤
        q.Distance p := by
      split_ifs with h
      · exact le_refl _
      · exact le_of_not_lt h
    set b1 := (if q.Distance p < best.2 then (p, q.Distance p) else best) with hb1def
    simp only [KDTree.points, List.mem_append, List.mem_cons] at hx
    by_cases h1 : q.get d < p.get d
    · rw [if_pos h1]
      by_cases hpl : (q.get d - p.get d) * (q.get d - p.get d) < (nnSearch q l b1).2
      · rw [if_pos hpl]
        rcases hx with hx | hx | hx
        · exact (nnSearch_le q r _).trans (ihl gL b1 hx)
        · subst hx
          exact (nnSearch_le q r _).trans ((nnSearch_le q l b1).trans hb1p)
        · exact ihr gR _ hx
      · rw [if_neg hpl]
        have hstop : (nnSearch q l b1).2 ≤ (q.get d - p.get d) * (q.get d - p.get d) :=
          le_of_not_lt hpl
        rcases hx with hx | hx | hx
        · exact ihl gL b1 hx
        · subst hx
          exact (nnSearch_le q l b1).trans hb1p
        · have hpx : p.get d ≤ x.get d := hR x hx
          have hplane : (q.get d - p.get d) * (q.get d - p.get d) ≤
              (q.get d - x.get d) * (q.get d - x.get d) := by
            nlinarith [mul_nonneg (sub_nonneg.mpr hpx)
              (by linarith : (0:ℚ) ≤ p.get d + x.get d - 2 * q.get d)]
          exact hstop.trans (hplane.trans (axis_le_Distance q x d))
    · rw [if_neg h1]
      have h1le : p.get d ≤ q.get d := le_of_not_lt h1
      by_cases hpl : (q.get d - p.get d) * (q.get d - p.get d) < (nnSearch q r b1).2
      · rw [if_pos hpl]
        rcases hx with hx | hx | hx
        · exact ihl gL _ hx
        · subst hx
          exact (nnSearch_le q l _).trans ((nnSearch_le q r b1).trans hb1p)
        · exact (nnSearch_le q l _).trans (ihr gR b1 hx)
      · rw [if_neg hpl]
        have hstop : (nnSearch q r b1).2 ≤ (q.get d - p.get d) * (q.get d - p.get d) :=
          le_of_not_lt hpl
        rcases hx with hx | hx | hx
        · have hpx : x.get d ≤ p.get d := hL x hx
          have hplane : (q.get d - p.get d) * (q.get d - p.get d) ≤
              (q.get d - x.get d) * (q.get d - x.get d) := by
            nlinarith [mul_nonneg (sub_nonneg.mpr hpx)
              (by linarith : (0:ℚ) ≤ 2 * q.get d - p.get d - x.get d)]
          exact hstop.trans (hplane.trans (axis_le_Distance q x d))
        · subst hx
          exact (nnSearch_le q r b1).trans hb1p
        · exact ihr gR b1 hx

theorem Nearest_isSome (t : KDTree) (ht : t ≠ .leaf) (q : geoPoint) :
    ∃ pr, t.Nearest q = some pr := by
  cases t with
  | leaf => exact absurd rfl ht
  | node l p d r => exact ⟨_, rfl⟩

theorem Nearest_mem (t : KDTree) (q p : geoPoint) (ds : ℚ)
    (h : t.Nearest q = some (p, ds)) : p ∈ t.points ∧ ds = q.Distance p := by
  cases t with
  | leaf => exact absurd h (by simp [KDTree.Nearest])
  | node l c d r =>
    simp only [KDTree.Nearest, Option.some_inj] at h
    have hm := nnSearch_fst_mem q (.node l c d r) (c, q.Distance c)
    have hs := nnSearch_snd q (.node l c d r) (c, q.Distance c) rfl
    have hp : p = (nnSearch q (.node l c d r) (c, q.Distance c)).1 := by rw [h]
    have hd : ds = (nnSearch q (.node l c d r) (c, q.Distance c)).2 := by rw [h]
    constructor
    · rcases hm with hm | hm
      · rw [hp, hm]
        simp [KDTree.points]
      · rw [hp]
        exact hm
    · rw [hp, hd, hs]

theorem Nearest_opt (t : KDTree) (hg : t.Good) (q p : geoPoint) (ds : ℚ)
    (h : t.Nearest q = some (p, ds)) :
    ∀ x ∈ t.points, ds ≤ q.Distance x := by
  intro x hx
  cases t with
  | leaf => exact absurd h (by simp [KDTree.Nearest])
  | node l c d r =>
    simp only [KDTree.Nearest, Option.some_inj] at h
    have hd : ds = (nnSearch q (.node l c d r) (c, q.Distance c)).2 := by rw [h]
    rw [hd]
    exact nnSearch_opt q (.node l c d r) hg (c, q.Distance c) x hx

/-- Embeds the Location struct (src/geodecode.go lines 32-40). -/
structure Location where
  Lat : ℚ
  Lon : ℚ
  City : String
  Admin1 : String
  Admin2 : String
  CC : String
  Country : String
  deriving DecidableEq, Repr

/-- Zero value of Location, as produced by the Go composite literal with no
fields (the empty Location appended on the defensive paths of Query). -/
def emptyLocation : Location :=
  { Lat := 0, Lon := 0, City := "", Admin1 := "", Admin2 := "", CC := "", Country := "" }

/-- Coordinate pair of a Location. -/
def Location.point (l : Location) : Coord := (l.Lat, l.Lon)

/-- Embeds the RGeocoder state (src/geodecode.go lines 115-120): the optional
KD-tree, the loaded dataset, the completion state of the build-once barrier
(sync.Once), and the verbosity flag. -/
structure RGeocoder where
  tree : Option KDTree
  locations : List Location
  loaded : Bool
  verbose : Bool
  deriving DecidableEq, Repr

/-- Range validation applied to each query coordinate (src/geodecode.go
line 275 and line 336). -/
def validCoord (c : Coord) : Bool :=
  if c.1 < -90 ∨ c.1 > 90 ∨ c.2 < -180 ∨ c.2 > 180 then false else true

/-- Embeds one CSV data row as it reaches the coordinate check of loadData
(src/geodecode.go lines 196-217): the lat and lon fields hold the outcome of
strconv.ParseFloat (none models a parse error), the other fields the raw
column strings. -/
structure RawRow where
  lat : Option ℚ
  lon : Option ℚ
  city : String
  admin1 : String
  admin2 : String
  cc : String
  deriving DecidableEq, Repr

/-- Location built from a row, if the row passes the parse and range checks of
the loader loop (src/geodecode.go lines 199-217); rows failing either check
are skipped. -/
def rowLocation (r : RawRow) : Option Location :=
  match r.lat, r.lon with
  | some lat, some lon =>
    if lat < -90 ∨ lat > 90 ∨ lon < -180 ∨ lon > 180 then none
    else some { Lat := lat, Lon := lon, City := r.city, Admin1 := r.admin1,
                Admin2 := r.admin2, CC := r.cc, Country := "" }
  | _, _ => none

/-- Dataset built by the loader loop of loadData (src/geodecode.go
lines 186-226). -/
def loadLocations (rows : List RawRow) : List Location :=
  rows.filterMap rowLocation

/-- Index keys handed to the KD-tree: each loaded Location paired with its
position in the dataset (src/geodecode.go lines 220-224). -/
def geoPointsOf (locs : List Location) : List geoPoint :=
  (List.range locs.length).map fun i =>
    { LatLon := (locs.getD i emptyLocation).point, Index := (i : Int) }

/-- Embeds loadData (src/geodecode.go lines 143-252) from the point where the
rows have been read: builds the dataset and, for two or more valid records,
the KD-tree; zero valid records leave the empty state, exactly one the
single-key shortcut state with no tree. The completion of the sync.Once
barrier is recorded in the loaded field. -/
def loadData (rows : List RawRow) (verbose : Bool) : RGeocoder :=
  if (geoPointsOf (loadLocations rows)).length = 0 then
    { tree := none, locations := [], loaded := true, verbose := verbose }
  else if (geoPointsOf (loadLocations rows)).length = 1 then
    { tree := none, locations := loadLocations rows, loaded := true, verbose := verbose }
  else
    { tree := some (build 0 (geoPointsOf (loadLocations rows))),
      locations := loadLocations rows, loaded := true, verbose := verbose }

/-- Body of the per-coordinate loop of Query once validation has passed
(src/geodecode.go lines 281-315): the single-location shortcut, the KD-tree
lookup, and the defensive bounds check on the index returned by the tree. -/
def processCoord (rg : RGeocoder) (c : Coord) : Location :=
  if rg.tree = none ∧ rg.locations.length = 1 then
    rg.locations.getD 0 emptyLocation
  else
    match rg.tree with
    | none => emptyLocation
    | some t =>
      match t.Nearest { LatLon := c, Index := 0 } with
      | none => emptyLocation
      | some (p, _) =>
        if 0 ≤ p.Index ∧ p.Index < (rg.locations.length : Int) then
          rg.locations.getD p.Index.toNat emptyLocation
        else
          emptyLocation

/-- Loop of Query over the batch (src/geodecode.go lines 270-316): the first
out-of-range coordinate aborts the whole call with the Go nil slice, modelled
as none; otherwise every coordinate contributes one Location in order. -/
def queryLoop (rg : RGeocoder) : List Coord → Option (List Location)
  | [] => some []
  | c :: cs =>
    if validCoord c then (queryLoop rg cs).map fun rest => processCoord rg c :: rest
    else none

/-- Embeds Query (src/geodecode.go lines 257-319) on the loaded state: the Go
nil slice result is modelled as none and a non-nil slice as some list. The
empty state and the empty batch are answered with the empty list before any
validation takes place. -/
def Query (rg : RGeocoder) (coords : List Coord) : Option (List Location) :=
  if rg.tree = none ∧ rg.locations = [] then some []
  else if coords = [] then some []
  else queryLoop rg coords

/-- Embeds FindLocation (src/geodecode.go lines 335-349): the coordinate is
validated first and rejected with none before the geocoder is consulted;
otherwise the call delegates to Query with a one-element batch and unwraps the
first result. The countryName argument stands for the external countries
collaborator that populates the Country field. -/
def FindLocation (countryName : String → String) (rg : RGeocoder) (coordinate : Coord) :
    Option Location :=
  if coordinate.1 < -90 ∨ coordinate.1 > 90 ∨ coordinate.2 < -180 ∨ coordinate.2 > 180 then
    none
  else
    match Query rg [coordinate] with
    | some (l :: _) => some { l with Country := countryName l.CC }
    | _ => none

/-- Global cell holding the singleton geocoder instance together with the
completion state of geocoderOnce (src/geodecode.go lines 122-125). -/
structure GeocoderGlobals where
  geocoderInstance : Option RGeocoder
  deriving DecidableEq, Repr

/-- Embeds GetRGeocoder (src/geodecode.go lines 132-140) as a state
transformer over the global cell: the first call creates the instance inside
geocoderOnce.Do, and every call, first or not, overwrites the verbosity flag
of the stored instance before returning it. -/
def GetRGeocoder (g : GeocoderGlobals) (verbose : Bool) : GeocoderGlobals × RGeocoder :=
  let inst : RGeocoder :=
    match g.geocoderInstance with
    | none => { tree := none, locations := [], loaded := false, verbose := verbose }
    | some rg => rg
  let inst2 := { inst with verbose := verbose }
  ({ geocoderInstance := some inst2 }, inst2)

theorem geoPointsOf_length (locs : List Location) :
    (geoPointsOf locs).length = locs.length := by
  simp [geoPointsOf]

theorem mem_geoPointsOf (locs : List Location) (p : geoPoint) :
    p ∈ geoPointsOf locs ↔
      ∃ i, i < locs.length ∧
        p = { LatLon := (locs.getD i emptyLocation).point, Index := (i : Int) } := by
  simp only [geoPointsOf, List.mem_map, List.mem_range]
  constructor
  · rintro ⟨i, hi, rfl⟩
    exact ⟨i, hi, rfl⟩
  · rintro ⟨i, hi, rfl⟩
    exact ⟨i, hi, rfl⟩

theorem loadData_empty (rows : List RawRow) (v : Bool) (h : loadLocations rows = []) :
    loadData rows v = { tree := none, locations := [], loaded := true, verbose := v } := by
  have h0 : (geoPointsOf (loadLocations rows)).length = 0 := by
    rw [geoPointsOf_length, h]
    rfl
  unfold loadData
  rw [if_pos h0]

theorem loadData_single (rows : List RawRow) (v : Bool)
    (h : (loadLocations rows).length = 1) :
    loadData rows v = { tree := none, locations := loadLocations rows, loaded := true,
                        verbose := v } := by
  have h1 : (geoPointsOf (loadLocations rows)).length = 1 := by
    rw [geoPointsOf_length, h]
  unfold loadData
  rw [if_neg (by omega), if_pos h1]

theorem loadData_two (rows : List RawRow) (v : Bool)
    (h2 : 2 ≤ (loadLocations rows).length) :
    loadData rows v = { tree := some (build 0 (geoPointsOf (loadLocations rows))),
                        locations := loadLocations rows, loaded := true, verbose := v } := by
  have hl : (geoPointsOf (loadLocations rows)).length = (loadLocations rows).length :=
    geoPointsOf_length _
  unfold loadData
  rw [if_neg (by omega), if_neg (by omega)]

theorem processCoord_opt (locs : List Location) (load v : Bool) (c : Coord)
    (h2 : 2 ≤ locs.length) :
    ∀ m ∈ locs,
      sqDist c (processCoord ⟨some (build 0 (geoPointsOf locs)), locs, load, v⟩ c).point ≤
        sqDist c m.point := by
  intro m hm
  have hne : geoPointsOf locs ≠ [] := by
    intro h
    have := geoPointsOf_length locs
    rw [h] at this
    simp at this
    omega
  have htne : build 0 (geoPointsOf locs) ≠ .leaf := build_ne_leaf 0 _ hne
  obtain ⟨⟨p, ds⟩, hn⟩ :=
    Nearest_isSome (build 0 (geoPointsOf locs)) htne { LatLon := c, Index := 0 }
  have hpm := Nearest_mem (build 0 (geoPointsOf locs)) { LatLon := c, Index := 0 } p ds hn
  have hpg : p ∈ geoPointsOf locs := (points_build 0 _ p).mp hpm.1
  obtain ⟨i, hi, hpe⟩ := (mem_geoPointsOf locs p).mp hpg
  have hidx : (0 : Int) ≤ p.Index ∧ p.Index < (locs.length : Int) := by
    rw [hpe]
    refine ⟨Int.natCast_nonneg i, ?_⟩
    show (i : Int) < (locs.length : Int)
    exact_mod_cast hi
  have hresult :
      processCoord ⟨some (build 0 (geoPointsOf locs)), locs, load, v⟩ c =
        locs.getD i emptyLocation := by
    unfold processCoord
    rw [if_neg (by simp)]
    simp only [hn]
    rw [if_pos hidx, hpe]
    simp
  have hdist : sqDist c (locs.getD i emptyLocation).point =
      geoPoint.Distance { LatLon := c, Index := 0 } p := by
    rw [hpe, geoPoint.Distance_eq_sqDist]
  obtain ⟨j, hj⟩ := List.mem_iff_get.mp hm
  have hkey : ({ LatLon := (locs.getD j.val emptyLocation).point, Index := (j.val : Int) } :
      geoPoint) ∈ geoPointsOf locs :=
    (mem_geoPointsOf locs _).mpr ⟨j.val, j.isLt, rfl⟩
  have hopt := Nearest_opt (build 0 (geoPointsOf locs)) (Good_build 0 _)
    { LatLon := c, Index := 0 } p ds hn _ ((points_build 0 _ _).mpr hkey)
  have hmp : sqDist c m.point =
      geoPoint.Distance { LatLon := c, Index := 0 }
        { LatLon := (locs.getD j.val emptyLocation).point, Index := (j.val : Int) } := by
    show sqDist c m.point = sqDist c (locs.getD j.val emptyLocation).point
    rw [List.getD_eq_getElem locs emptyLocation j.isLt, ← hj]
    rfl
  rw [hresult, hdist, hmp, ← hpm.2]
  exact hopt

theorem queryLoop_all_valid (rg : RGeocoder) (coords : List Coord)
    (hv : ∀ c ∈ coords, validCoord c = true) :
    queryLoop rg coords = some (coords.map (processCoord rg)) := by
  induction coords with
  | nil => rfl
  | cons c cs ih =>
    have hc := hv c (List.mem_cons_self c cs)
    have hcs := ih fun x hx => hv x (List.mem_cons_of_mem c hx)
    simp [queryLoop, hc, hcs]

theorem queryLoop_invalid (rg : RGeocoder) (coords : List Coord)
    (h : ∃ c ∈ coords, validCoord c = false) :
    queryLoop rg coords = none := by
  induction coords with
  | nil =>
    obtain ⟨c, hc, -⟩ := h
    exact absurd hc (List.not_mem_nil c)
  | cons c cs ih =>
    by_cases hc : validCoord c
    · obtain ⟨x, hx, hxv⟩ := h
      rcases List.mem_cons.mp hx with rfl | hx2
      · rw [hc] at hxv
        exact absurd hxv (by simp)
      · simp [queryLoop, hc, ih ⟨x, hx2, hxv⟩]
    · simp [queryLoop, hc]

theorem Query_all_valid (rg : RGeocoder) (coords : List Coord)
    (hne : rg.locations ≠ []) (hv : ∀ c ∈ coords, validCoord c = true) :
    Query rg coords = some (coords.map (processCoord rg)) := by
  unfold Query
  rw [if_neg (by intro h; exact hne h.2)]
  by_cases hc : coords = []
  · subst hc
    simp
  · rw [if_neg hc]
    exact queryLoop_all_valid rg coords hv

theorem loadData_locations (rows : List RawRow) (v : Bool) :
    (loadData rows v).locations = loadLocations rows := by
  unfold loadData
  split_ifs with h0 h1
  · rw [geoPointsOf_length] at h0
    exact (List.length_eq_zero.mp h0).symm
  · rfl
  · rfl

theorem mem_zip_map {α β : Type} (f : α → β) (l : List α) (p : α × β)
    (hp : p ∈ List.zip l (l.map f)) : p.1 ∈ l ∧ p.2 = f p.1 := by
  induction l with
  | nil => simp at hp
  | cons a as ih =>
    simp only [List.map_cons, List.zip_cons_cons, List.mem_cons] at hp
    rcases hp with hp | hp
    · rw [hp]
      exact ⟨List.mem_cons_self a as, rfl⟩
    · obtain ⟨h1, h2⟩ := ih hp
      exact ⟨List.mem_cons_of_mem a h1, h2⟩

/-- Sample data row at coordinate (0, 0). -/
def rowA : RawRow :=
  { lat := some 0, lon := some 0, city := "A", admin1 := "", admin2 := "", cc := "AA" }

/-- Sample data row at coordinate (10, 10). -/
def rowB : RawRow :=
  { lat := some 10, lon := some 10, city := "B", admin1 := "", admin2 := "", cc := "BB" }

/-- Sample data row at coordinate (5, 5). -/
def rowX : RawRow :=
  { lat := some 5, lon := some 5, city := "X", admin1 := "", admin2 := "", cc := "XX" }

/-- Sample data row whose latitude field fails to parse. -/
def rowBad : RawRow :=
  { lat := none, lon := some 0, city := "bad", admin1 := "", admin2 := "", cc := "" }

/-- C1 counterexample: against the empty-state geocoder (the loader produced
no record), a batch containing the out-of-range coordinate (999, 999) is
answered with the empty result list, not with the nil batch-level invalid
signal required by the claim. -/
theorem C1_cex : ¬ (Query (loadData [] false) [((999 : ℚ), (999 : ℚ))] = none) := by
  with_unfolding_all decide

/-- C1 (amended): provided at least one record was loaded, a batch containing
any coordinate with latitude outside [-90, 90] or longitude outside
[-180, 180] makes RGeocoder.Query return the nil result list (none), never a
partial per-element result list. -/
theorem C1_batch_invalid (rows : List RawRow) (v : Bool) (coords : List Coord)
    (hne : loadLocations rows ≠ [])
    (hinv : ∃ c ∈ coords, validCoord c = false) :
    Query (loadData rows v) coords = none := by
  unfold Query
  rw [if_neg ?hc1]
  case hc1 =>
    rintro ⟨-, h2⟩
    rw [loadData_locations] at h2
    exact hne h2
  have hcne : coords ≠ [] := by
    rcases hinv with ⟨c, hc, -⟩
    intro h
    rw [h] at hc
    exact List.not_mem_nil c hc
  rw [if_neg hcne]
  exact queryLoop_invalid _ coords hinv

/-- C1 witness: a concrete one-record dataset and a batch holding the
out-of-range coordinate (999, 999). -/
theorem C1_witness : Query (loadData [rowX] false) [((999 : ℚ), (999 : ℚ))] = none :=
  C1_batch_invalid [rowX] false [((999 : ℚ), (999 : ℚ))]
    (by with_unfolding_all decide)
    ⟨((999 : ℚ), (999 : ℚ)), by with_unfolding_all decide, by with_unfolding_all decide⟩

/-- C2: for every all-in-range query batch against a dataset of at least two
loaded records, the Location paired with each batch coordinate in the result
of RGeocoder.Query lies at a squared planar Euclidean distance to that
coordinate no greater than that of every record of the dataset. -/
theorem C2_query_optimal (rows : List RawRow) (v : Bool) (coords : List Coord)
    (res : List Location)
    (h2 : 2 ≤ (loadLocations rows).length)
    (hv : ∀ c ∈ coords, validCoord c = true)
    (hq : Query (loadData rows v) coords = some res) :
    ∀ p ∈ List.zip coords res, ∀ m ∈ (loadData rows v).locations,
      sqDist p.1 p.2.point ≤ sqDist p.1 m.point := by
  intro p hp m hm
  rw [loadData_two rows v h2] at hq hm
  have hne : loadLocations rows ≠ [] := by
    intro h
    rw [h] at h2
    simp at h2
  have hq2 := Query_all_valid
    ⟨some (build 0 (geoPointsOf (loadLocations rows))), loadLocations rows, true, v⟩
    coords hne hv
  rw [hq] at hq2
  have hres := Option.some_inj.mp hq2
  subst hres
  obtain ⟨hp1, hp2⟩ := mem_zip_map _ coords p hp
  rw [hp2]
  exact processCoord_opt (loadLocations rows) true v p.1 h2 m hm

/-- C2 witness: the two-record dataset A at (0, 0) and B at (10, 10), queried
at (1, 1); the returned record A is at least as close to (1, 1) as B. -/
theorem C2_witness :
    sqDist ((1 : ℚ), (1 : ℚ)) (Location.mk 0 0 "A" "" "" "AA" "").point ≤
      sqDist ((1 : ℚ), (1 : ℚ)) (Location.mk 10 10 "B" "" "" "BB" "").point :=
  C2_query_optimal [rowA, rowB] false [((1 : ℚ), (1 : ℚ))]
    [Location.mk 0 0 "A" "" "" "AA" ""]
    (by with_unfolding_all decide)
    (by with_unfolding_all decide)
    (by with_unfolding_all decide)
    (((1 : ℚ), (1 : ℚ)), Location.mk 0 0 "A" "" "" "AA" "")
    (by with_unfolding_all decide)
    (Location.mk 10 10 "B" "" "" "BB" "")
    (by with_unfolding_all decide)

/-- C3: when loading yields zero valid records the service is permanently
empty and this is not an error: Query answers every batch, whether its
coordinates are valid or not, with the empty result list, and FindLocation
answers every coordinate with none; both are total functions, so no
user-facing operation panics. -/
theorem C3_empty_state (rows : List RawRow) (v : Bool)
    (h : loadLocations rows = []) :
    (∀ coords : List Coord, Query (loadData rows v) coords = some []) ∧
      (∀ (cn : String → String) (c : Coord), FindLocation cn (loadData rows v) c = none) := by
  rw [loadData_empty rows v h]
  constructor
  · intro coords
    unfold Query
    rw [if_pos ⟨rfl, rfl⟩]
  · intro cn c
    have hq : Query ⟨none, [], true, v⟩ [c] = some [] := by
      unfold Query
      rw [if_pos ⟨rfl, rfl⟩]
    unfold FindLocation
    split_ifs with hc
    · rfl
    · rw [hq]

/-- C3 witness: a dataset whose only row fails to parse, queried both through
Query with an out-of-range coordinate and through FindLocation with a valid
one. -/
theorem C3_witness :
    Query (loadData [rowBad] false) [((999 : ℚ), (999 : ℚ))] = some [] ∧
      FindLocation (fun _ => "") (loadData [rowBad] false) ((3 : ℚ), (4 : ℚ)) = none :=
  ⟨(C3_empty_state [rowBad] false (by with_unfolding_all decide)).1
      [((999 : ℚ), (999 : ℚ))],
   (C3_empty_state [rowBad] false (by with_unfolding_all decide)).2
      (fun _ => "") ((3 : ℚ), (4 : ℚ))⟩

/-- C4 counterexample: with exactly one valid record loaded (the single-key
shortcut state), the out-of-range query (999, 999) is answered with the nil
invalid signal, not with that record as the claim demands for every query. -/
theorem C4_cex :
    Query (loadData [rowX] false) [((999 : ℚ), (999 : ℚ))] = none ∧
      ¬ (Query (loadData [rowX] false) [((999 : ℚ), (999 : ℚ))] =
          some [Location.mk 5 5 "X" "" "" "XX" ""]) := by
  with_unfolding_all decide

/-- C4 (amended): if exactly one valid record is loaded, every batch of
in-range coordinates is answered with that single record at every position,
regardless of its distance to the query coordinates. -/
theorem C4_single_record (rows : List RawRow) (v : Bool) (coords : List Coord)
    (h1 : (loadLocations rows).length = 1)
    (hv : ∀ c ∈ coords, validCoord c = true) :
    Query (loadData rows v) coords =
      some (coords.map fun _ => (loadLocations rows).getD 0 emptyLocation) := by
  rw [loadData_single rows v h1]
  have hne : loadLocations rows ≠ [] := by
    intro h
    rw [h] at h1
    simp at h1
  rw [Query_all_valid ⟨none, loadLocations rows, true, v⟩ coords hne hv]
  have hpc : ∀ c : Coord, processCoord ⟨none, loadLocations rows, true, v⟩ c =
      (loadLocations rows).getD 0 emptyLocation := by
    intro c
    unfold processCoord
    rw [if_pos ⟨rfl, h1⟩]
  rw [List.map_congr_left fun c _ => hpc c]

/-- C4 witness: the single record X at (5, 5) is returned for the far-away
query (89, 179). -/
theorem C4_witness :
    Query (loadData [rowX] false) [((89 : ℚ), (179 : ℚ))] =
      some ([((89 : ℚ), (179 : ℚ))].map fun _ =>
        (loadLocations [rowX]).getD 0 emptyLocation) :=
  C4_single_record [rowX] false [((89 : ℚ), (179 : ℚ))]
    (by with_unfolding_all decide)
    (by with_unfolding_all decide)

/-- C5: FindLocation validates its coordinate first — out-of-range input is
answered none for every geocoder state, before the instance or the index is
consulted — and for in-range input it delegates to Query with a one-element
batch, returning the first result (with the Country field filled in by the
country collaborator) or none when that batch result is empty. -/
theorem C5_findLocation_delegates (cn : String → String) (rg : RGeocoder) (c : Coord) :
    FindLocation cn rg c =
      if validCoord c then
        ((Query rg [c]).getD []).head?.map fun l => { l with Country := cn l.CC }
      else none := by
  by_cases h : c.1 < -90 ∨ c.1 > 90 ∨ c.2 < -180 ∨ c.2 > 180
  · have hv : validCoord c = false := by
      unfold validCoord
      rw [if_pos h]
    unfold FindLocation
    rw [if_pos h, hv]
    rfl
  · have hv : validCoord c = true := by
      unfold validCoord
      rw [if_neg h]
    unfold FindLocation
    rw [if_neg h, hv, if_pos rfl]
    cases hq : Query rg [c] with
    | none => rfl
    | some res =>
      cases res with
      | nil => rfl
      | cons l rest => rfl

/-- C6: every record in the loaded dataset has latitude in [-90, 90] and
longitude in [-180, 180], and therefore so has every index key handed to the
spatial index builder; rows failing to parse or lying out of range are
skipped by the loader. -/
theorem C6_loader_ranges (rows : List RawRow) :
    (∀ l ∈ loadLocations rows,
        -90 ≤ l.Lat ∧ l.Lat ≤ 90 ∧ -180 ≤ l.Lon ∧ l.Lon ≤ 180) ∧
      (∀ p ∈ geoPointsOf (loadLocations rows),
        -90 ≤ p.LatLon.1 ∧ p.LatLon.1 ≤ 90 ∧ -180 ≤ p.LatLon.2 ∧ p.LatLon.2 ≤ 180) := by
  have hloc : ∀ l ∈ loadLocations rows,
      -90 ≤ l.Lat ∧ l.Lat ≤ 90 ∧ -180 ≤ l.Lon ∧ l.Lon ≤ 180 := by
    intro l hl
    obtain ⟨r, hr, hrl⟩ := List.mem_filterMap.mp hl
    unfold rowLocation at hrl
    cases hla : r.lat with
    | none => rw [hla] at hrl; simp at hrl
    | some lat =>
      cases hlo : r.lon with
      | none => rw [hla, hlo] at hrl; simp at hrl
      | some lon =>
        rw [hla, hlo] at hrl
        simp only at hrl
        by_cases hcond : lat < -90 ∨ lat > 90 ∨ lon < -180 ∨ lon > 180
        · rw [if_pos hcond] at hrl
          exact Option.noConfusion hrl
        · rw [if_neg hcond] at hrl
          push_neg at hcond
          have hle := Option.some_inj.mp hrl
          rw [← hle]
          exact ⟨hcond.1, hcond.2.1, hcond.2.2.1, hcond.2.2.2⟩
  refine ⟨hloc, ?_⟩
  intro p hp
  obtain ⟨i, hi, rfl⟩ := (mem_geoPointsOf (loadLocations rows) p).mp hp
  have hmem : (loadLocations rows).getD i emptyLocation ∈ loadLocations rows := by
    rw [List.getD_eq_getElem (loadLocations rows) emptyLocation hi]
    exact List.getElem_mem hi
  exact hloc _ hmem

/-- C6 witness: the record loaded from the (5, 5) sample row lies inside both
coordinate ranges. -/
theorem C6_witness :
    -90 ≤ (Location.mk 5 5 "X" "" "" "XX" "").Lat ∧
      (Location.mk 5 5 "X" "" "" "XX" "").Lat ≤ 90 ∧
      -180 ≤ (Location.mk 5 5 "X" "" "" "XX" "").Lon ∧
      (Location.mk 5 5 "X" "" "" "XX" "").Lon ≤ 180 :=
  (C6_loader_ranges [rowX]).1 (Location.mk 5 5 "X" "" "" "XX" "")
    (by with_unfolding_all decide)

/-- C7: Query does not panic when the nearest-neighbor search returns a key
whose index lies outside the dataset bounds (an internal invariant
violation): the batch result carries the empty Location at that position. -/
theorem C7_invalid_index (rg : RGeocoder) (t : KDTree) (c : Coord) (p : geoPoint) (ds : ℚ)
    (htree : rg.tree = some t)
    (hn : t.Nearest { LatLon := c, Index := 0 } = some (p, ds))
    (hbad : ¬ (0 ≤ p.Index ∧ p.Index < (rg.locations.length : Int)))
    (hval : validCoord c = true) :
    Query rg [c] = some [emptyLocation] := by
  have hpc : processCoord rg c = emptyLocation := by
    unfold processCoord
    rw [if_neg ?hc1]
    case hc1 =>
      rintro ⟨h1, -⟩
      rw [htree] at h1
      exact Option.noConfusion h1
    rw [htree]
    simp only [hn]
    rw [if_neg hbad]
  unfold Query
  rw [if_neg ?hc2]
  case hc2 =>
    rintro ⟨h1, -⟩
    rw [htree] at h1
    exact Option.noConfusion h1
  rw [if_neg (by simp)]
  unfold queryLoop
  rw [if_pos hval]
  simp [queryLoop, hpc]

/-- Concrete geocoder state whose tree references dataset index 5 while the
dataset holds a single record; such a state indicates a construction bug,
which Query must absorb without panicking. -/
def rgBadIdx : RGeocoder :=
  { tree := some (.node .leaf { LatLon := (0, 0), Index := 5 } 0 .leaf),
    locations := [Location.mk 0 0 "A" "" "" "AA" ""], loaded := true, verbose := false }

/-- C7 witness: the bad-index state queried at (0, 0) yields the empty
Location rather than a panic. -/
theorem C7_witness : Query rgBadIdx [((0 : ℚ), (0 : ℚ))] = some [emptyLocation] :=
  C7_invalid_index rgBadIdx (.node .leaf { LatLon := (0, 0), Index := 5 } 0 .leaf)
    ((0 : ℚ), (0 : ℚ)) { LatLon := (0, 0), Index := 5 } 0
    (by with_unfolding_all decide)
    (by with_unfolding_all decide)
    (by with_unfolding_all decide)
    (by with_unfolding_all decide)

/-- C8: querying is deterministic — two geocoder states holding the same
built tree and the same dataset answer every batch with the same result list,
whatever their verbosity flags or barrier states. -/
theorem C8_deterministic (rg1 rg2 : RGeocoder) (coords : List Coord)
    (ht : rg1.tree = rg2.tree) (hl : rg1.locations = rg2.locations) :
    Query rg1 coords = Query rg2 coords := by
  obtain ⟨t1, l1, b1, v1⟩ := rg1
  obtain ⟨t2, l2, b2, v2⟩ := rg2
  simp only at ht hl
  subst ht
  subst hl
  have hql : ∀ cs : List Coord,
      queryLoop ⟨t1, l1, b1, v1⟩ cs = queryLoop ⟨t1, l1, b2, v2⟩ cs := by
    intro cs
    induction cs with
    | nil => rfl
    | cons c cs ih =>
      unfold queryLoop
      rw [ih]
      rfl
  unfold Query
  rw [hql coords]

/-- C8 witness: two states sharing tree and dataset but with opposite
verbosity flags answer the batch [(1, 2)] identically. -/
theorem C8_witness :
    Query ⟨none, [Location.mk 0 0 "A" "" "" "AA" ""], true, true⟩ [((1 : ℚ), (2 : ℚ))] =
      Query ⟨none, [Location.mk 0 0 "A" "" "" "AA" ""], false, false⟩ [((1 : ℚ), (2 : ℚ))] :=
  C8_deterministic _ _ [((1 : ℚ), (2 : ℚ))] rfl rfl

/-- C10: once the singleton exists, every further GetRGeocoder call returns
that same stored instance with only its verbosity flag overwritten by the
argument; the dataset, the tree and the build-once state are unchanged, and
the cell keeps exactly the returned instance. -/
theorem C10_getRGeocoder (g : GeocoderGlobals) (rg : RGeocoder) (v : Bool)
    (h : g.geocoderInstance = some rg) :
    GetRGeocoder g v =
      ({ geocoderInstance := some { rg with verbose := v } }, { rg with verbose := v }) := by
  unfold GetRGeocoder
  rw [h]

/-- C10 witness: a stored instance with verbosity false is returned with
verbosity true and untouched data fields when requested with true. -/
theorem C10_witness :
    GetRGeocoder { geocoderInstance := some ⟨none, [], true, false⟩ } true =
      ({ geocoderInstance := some ⟨none, [], true, true⟩ }, ⟨none, [], true, true⟩) :=
  C10_getRGeocoder { geocoderInstance := some ⟨none, [], true, false⟩ }
    ⟨none, [], true, false⟩ true rfl

end GeoDecode
